import Mathlib

/-
Verification of the core of `scripts/ingest_permits.py`: a shallow embedding of
the record normalizer (`process_permit`), the borough-name canonicalizer
(`normalize_borough` with its alias table `BOROUGH_ALIASES`), the per-borough
statistics aggregator (`compute_borough_stats`), and the top-level filtering
pipeline of `main`.

Modelling conventions:
- Python scalar values (string / number / null) are the inductive `Value`;
  a raw record is an association list from field names to values, and
  `dict.get` is `rawGet` / `rawGetD` (a missing key yields Python `None`,
  modelled as `Value.null`).
- Python floats are modelled as exact rationals; `round(x, n)` is modelled as
  exact round-half-even on rationals (`pyRound`).
- Exceptions are modelled with `Except PyError`; the `try/except
  (ValueError, TypeError)` block of `process_permit` is `tryProcessingDays`,
  which swallows date-parse failures but lets the `AttributeError` raised by
  `.replace` on a non-string value escape, exactly as in the source.
- `datetime.fromisoformat(...).date()` is `pyFromisoformatDate`, a model of the
  stdlib parser on the ISO-8601 forms relevant to the dataset
  (`YYYY-MM-DD[<sep>HH[:MM[:SS[.ffff]]][<offset>]]`), and `float(...)` is
  `parsePyFloat`, a model of the stdlib parser on plain decimal literals.
  Both are stdlib collaborators of the repository code, not repository code.
-/

/-- A Python scalar value as delivered in a raw API record: a string, an
integer, a float (modelled as an exact rational), or `None`. -/
inductive Value where
  | str (s : String)
  | int (n : Int)
  | float (q : ℚ)
  | null
deriving DecidableEq, Repr

/-- Python truthiness of a scalar: empty string, zero and `None` are falsy. -/
def Value.truthy : Value → Bool
  | .str s => decide (s ≠ "")
  | .int n => decide (n ≠ 0)
  | .float q => decide (q ≠ 0)
  | .null => false

/-- A raw permit record: an association list of field names to values. -/
def RawRecord : Type := List (String × Value)

/-- First-match association-list lookup, the model of a Python dict lookup
(dict keys are unique, so first-match agrees with the dict). -/
def assocFind {β : Type} (k : String) : List (String × β) → Option β
  | [] => none
  | (k2, v) :: rest => if k2 = k then some v else assocFind k rest

/-- Model of `raw.get(k)`: `None` when the key is missing. -/
def rawGet (raw : RawRecord) (k : String) : Value :=
  (assocFind k raw).getD .null

/-- Model of `raw.get(k, dflt)`: the default applies only to a missing key. -/
def rawGetD (raw : RawRecord) (k : String) (dflt : Value) : Value :=
  (assocFind k raw).getD dflt

/-- The characters stripped by Python `str.strip()`: the Unicode whitespace
set used by `str.isspace` (given by code point). -/
def pyIsSpace (c : Char) : Bool :=
  let n := c.toNat
  (9 ≤ n && n ≤ 13) || (28 ≤ n && n ≤ 32) || n == 133 || n == 160 || n == 5760 ||
    (8192 ≤ n && n ≤ 8202) || n == 8232 || n == 8233 || n == 8239 || n == 8287 || n == 12288

/-- Drop leading Python whitespace from a character list. -/
def pyLStripList (l : List Char) : List Char := l.dropWhile pyIsSpace

/-- Drop trailing Python whitespace from a character list. -/
def pyRStripList (l : List Char) : List Char := (l.reverse.dropWhile pyIsSpace).reverse

/-- Model of Python `str.strip()`. -/
def pyStrip (s : String) : String := ⟨pyRStripList (pyLStripList s.data)⟩

/-- Model of Python `str.replace(a, b)` for single-character `a` and `b`. -/
def pyReplaceChar (a b : Char) (s : String) : String :=
  ⟨s.data.map (fun c => if c = a then b else c)⟩

/-- The borough name normalization mapping `BOROUGH_ALIASES` of the source,
reproduced verbatim (keys use the em-dash U+2014 where the source does). -/
def BOROUGH_ALIASES : List (String × String) :=
  [("Côte-des-Neiges—Notre-Dame-de-Grâce", "Côte-des-Neiges-Notre-Dame-de-Grâce"),
   ("Mercier—Hochelaga-Maisonneuve", "Mercier-Hochelaga-Maisonneuve"),
   ("L\x27Île-Bizard—Sainte-Geneviève", "L\x27Île-Bizard-Sainte-Geneviève"),
   ("Rivière-des-Prairies—Pointe-aux-Trembles", "Rivière-des-Prairies-Pointe-aux-Trembles"),
   ("Villeray—Saint-Michel—Parc-Extension", "Villeray-Saint-Michel-Parc-Extension"),
   ("Plateau-Mont-Royal", "Le Plateau-Mont-Royal"),
   ("Plateau Mont-Royal", "Le Plateau-Mont-Royal"),
   ("Sud-Ouest", "Le Sud-Ouest"),
   ("Montreal-Nord", "Montréal-Nord"),
   ("Saint-Leonard", "Saint-Léonard")]

/-- The cleanup step of `normalize_borough`: strip whitespace, then replace the
em-dash (U+2014) and the en-dash (U+2013) by an ASCII hyphen, in source order. -/
def cleanName (s : String) : String :=
  pyReplaceChar '–' '-' (pyReplaceChar '—' '-' (pyStrip s))

/-- Model of `normalize_borough`: empty input maps to the empty string;
otherwise the cleaned name is looked up in the alias table and returned
unchanged when absent. -/
def normalize_borough (name : String) : String :=
  if name = "" then ""
  else
    let cleaned := cleanName name
    (assocFind cleaned BOROUGH_ALIASES).getD cleaned

/-- A calendar date of the proleptic Gregorian calendar, as produced by
`datetime.date`. -/
structure PyDate where
  year : Nat
  month : Nat
  day : Nat
deriving DecidableEq, Repr

/-- Gregorian leap-year test. -/
def isLeapYear (y : Nat) : Bool := y % 4 == 0 && (y % 100 != 0 || y % 400 == 0)

/-- Days in the months strictly before month `m` of a common year. -/
def monthPrefixDays : Nat → Nat
  | 1 => 0 | 2 => 31 | 3 => 59 | 4 => 90 | 5 => 120 | 6 => 151
  | 7 => 181 | 8 => 212 | 9 => 243 | 10 => 273 | 11 => 304 | 12 => 334
  | _ => 0

/-- Length of month `m` of year `y`. -/
def daysInMonth (y m : Nat) : Nat :=
  if m = 2 then (if isLeapYear y then 29 else 28)
  else if m = 4 || m = 6 || m = 9 || m = 11 then 30
  else 31

/-- Proleptic Gregorian ordinal of a date (day 1 is 0001-01-01), as used by
`datetime.date` subtraction: the difference of two ordinals is the day
difference of the two dates. -/
def PyDate.toOrdinal (d : PyDate) : Nat :=
  let py := d.year - 1
  365 * py + py / 4 - py / 100 + py / 400
    + monthPrefixDays d.month
    + (if isLeapYear d.year && decide (3 ≤ d.month) then 1 else 0)
    + d.day

/-- Numeric value of a decimal digit character. -/
def digitVal (c : Char) : Nat := c.toNat - 48

/-- Read exactly two decimal digits from the front of a character list. -/
def read2 : List Char → Option (Nat × List Char)
  | a :: b :: rest =>
    if a.isDigit && b.isDigit then some (digitVal a * 10 + digitVal b, rest) else none
  | _ => none

/-- Recognizer for the UTC-offset tail of an ISO timestamp:
empty, or `±HH`, `±HH:MM`, `±HH:MM:SS`. Part of the `fromisoformat` model. -/
def validOffset : List Char → Bool
  | [] => true
  | c :: rest =>
    (c == '+' || c == '-') &&
      match read2 rest with
      | none => false
      | some (h, r1) =>
        decide (h ≤ 23) &&
          match r1 with
          | [] => true
          | c2 :: r2 =>
            c2 == ':' &&
              match read2 r2 with
              | none => false
              | some (m, r3) =>
                decide (m ≤ 59) &&
                  match r3 with
                  | [] => true
                  | c3 :: r4 =>
                    c3 == ':' &&
                      match read2 r4 with
                      | none => false
                      | some (s, r5) => decide (s ≤ 59) && r5.isEmpty

/-- Recognizer for an optional fractional-seconds part followed by an optional
UTC offset. Part of the `fromisoformat` model. -/
def validFracThenOffset : List Char → Bool
  | [] => true
  | c :: rest =>
    if c == '.' || c == ',' then
      !(rest.takeWhile Char.isDigit).isEmpty && validOffset (rest.dropWhile Char.isDigit)
    else validOffset (c :: rest)

/-- Recognizer for the time-of-day part of an ISO timestamp:
`HH[:MM[:SS[.ffff]]]` followed by an optional offset. Part of the
`fromisoformat` model. -/
def validTime (cs : List Char) : Bool :=
  match read2 cs with
  | none => false
  | some (h, r1) =>
    decide (h ≤ 23) &&
      match r1 with
      | [] => true
      | c :: r2 =>
        if c == ':' then
          match read2 r2 with
          | none => false
          | some (m, r3) =>
            decide (m ≤ 59) &&
              match r3 with
              | [] => true
              | c2 :: r4 =>
                if c2 == ':' then
                  match read2 r4 with
                  | none => false
                  | some (s, r5) => decide (s ≤ 59) && validFracThenOffset r5
                else validOffset (c2 :: r4)
        else validOffset (c :: r2)

/-- Model of `datetime.fromisoformat(s).date()` on the ISO-8601 forms relevant
here: a `YYYY-MM-DD` date, optionally followed by a single separator character,
a time of day and a UTC offset; `none` models a `ValueError`. -/
def pyFromisoformatDate (s : String) : Option PyDate :=
  match s.data with
  | y1 :: y2 :: y3 :: y4 :: h1 :: m1 :: m2 :: h2 :: d1 :: d2 :: rest =>
    if y1.isDigit && y2.isDigit && y3.isDigit && y4.isDigit && h1 == '-' &&
        m1.isDigit && m2.isDigit && h2 == '-' && d1.isDigit && d2.isDigit then
      let y := ((digitVal y1 * 10 + digitVal y2) * 10 + digitVal y3) * 10 + digitVal y4
      let m := digitVal m1 * 10 + digitVal m2
      let d := digitVal d1 * 10 + digitVal d2
      if decide (1 ≤ y) && decide (1 ≤ m) && decide (m ≤ 12) &&
          decide (1 ≤ d) && decide (d ≤ daysInMonth y m) then
        match rest with
        | [] => some ⟨y, m, d⟩
        | _ :: timecs => if validTime timecs then some ⟨y, m, d⟩ else none
      else none
    else none
  | _ => none

/-- Model of `s.replace("Z", "+00:00")`. -/
def pyReplaceZ (s : String) : String :=
  ⟨s.data.flatMap (fun c => if c = 'Z' then ['+', '0', '0', ':', '0', '0'] else [c])⟩

/-- Model of Python `s[:10]`: the first ten characters. -/
def pySlice10 (s : String) : String := ⟨s.data.take 10⟩

/-- The Python exceptions relevant to `process_permit`. -/
inductive PyError where
  | attributeError
  | typeError
  | valueError
deriving DecidableEq, Repr

/-- Model of a simple decimal literal accepted by Python `float()` (optional
surrounding whitespace and sign, digits with an optional fractional part);
`none` models a `ValueError`. A stdlib model, only reached for truthy
geocoordinate values. -/
def parseFloatDigits (sign : ℚ) (l : List Char) : Option ℚ :=
  let ip := l.takeWhile Char.isDigit
  let rest := l.dropWhile Char.isDigit
  match rest with
  | [] => if ip.isEmpty then none else some (sign * (List.foldl (fun a c => a * 10 + digitVal c) 0 ip : ℚ))
  | c :: frac =>
    if c == '.' && frac.all Char.isDigit && !(ip.isEmpty && frac.isEmpty) then
      some (sign * ((List.foldl (fun a c => a * 10 + digitVal c) 0 ip : ℚ) +
        (List.foldl (fun a c => a * 10 + digitVal c) 0 frac : ℚ) / (10 : ℚ) ^ frac.length))
    else none

/-- Model of Python `float(s)` for a string argument. -/
def parsePyFloat (s : String) : Option ℚ :=
  match ((s.data.dropWhile pyIsSpace).reverse.dropWhile pyIsSpace).reverse with
  | '-' :: rest => parseFloatDigits (-1) rest
  | '+' :: rest => parseFloatDigits 1 rest
  | l => parseFloatDigits 1 l

/-- Model of Python `float(v)` on a scalar value. -/
def pyFloatOfValue : Value → Except PyError Value
  | .str s =>
    match parsePyFloat s with
    | some q => .ok (.float q)
    | none => .error .valueError
  | .int n => .ok (.float (n : ℚ))
  | .float q => .ok (.float q)
  | .null => .error .typeError

/-- Model of the `try` block of `process_permit` around date parsing, run only
when both raw date values are truthy. A parse failure is a `ValueError`, caught
by `except (ValueError, TypeError)` and modelled as `.ok none`; calling
`.replace` on a truthy non-string raises an `AttributeError`, which that
`except` clause does not catch, so it escapes. The first date is parsed in
full before the second is touched, as in the source. -/
def tryProcessingDays (v1 v2 : Value) : Except PyError (Option Int) :=
  match v1 with
  | .str s1 =>
    match pyFromisoformatDate (pyReplaceZ s1) with
    | none => .ok none
    | some d1 =>
      match v2 with
      | .str s2 =>
        match pyFromisoformatDate (pyReplaceZ s2) with
        | none => .ok none
        | some d2 =>
          let pd : Int := (d2.toOrdinal : Int) - (d1.toOrdinal : Int)
          .ok (if pd < 0 then none else some pd)
      | _ => .error .attributeError
  | _ => .error .attributeError

/-- Model of `x[:10] if x else None` for a date field value: `None` for a falsy
value, the ten-character prefix for a truthy string, and a `TypeError` for a
truthy non-string (slicing an unsubscriptable value). -/
def sliceField (v : Value) : Except PyError Value :=
  if v.truthy then
    match v with
    | .str s => .ok (.str (pySlice10 s))
    | _ => .error .typeError
  else .ok .null

/-- Model of `float(x) if x else None` for a geocoordinate value. -/
def coordField (v : Value) : Except PyError Value :=
  if v.truthy then pyFloatOfValue v else .ok .null

/-- The `processing_days` computation of `process_permit`: the `try` block is
entered only when both raw date values are truthy. -/
def daysStep (raw : RawRecord) : Except PyError (Option Int) :=
  if (rawGet raw "date_debut").truthy && (rawGet raw "date_emission").truthy then
    tryProcessingDays (rawGet raw "date_debut") (rawGet raw "date_emission")
  else .ok none

/-- Model of `raw.get("arrondissement", "") or ""`. -/
def boroughRawValue (raw : RawRecord) : Value :=
  if (rawGetD raw "arrondissement" (.str "")).truthy then rawGetD raw "arrondissement" (.str "")
  else .str ""

/-- The borough extraction of `process_permit`: `normalize_borough` called on a
truthy non-string raises an `AttributeError` at `name.strip()`. -/
def boroughStep (raw : RawRecord) : Except PyError String :=
  match boroughRawValue raw with
  | .str s => .ok s
  | _ => .error .attributeError

/-- The normalized permit record produced by `process_permit`, with the fields
of the source dict; `processing_days` is `None` or an integer. -/
structure PermitRec where
  external_id : Value
  permit_id : Value
  application_date : Value
  issue_date : Value
  processing_days : Option Int
  address : Value
  borough_raw : String
  borough_normalized : String
  type_code : Value
  type_description : Value
  building_type : Value
  building_category : Value
  work_nature : Value
  housing_units : Value
  latitude : Value
  longitude : Value
deriving DecidableEq, Repr

/-- The output dict literal of `process_permit`, assembled from the raw record
and the values of the fallible steps. Every passthrough field is a plain
`raw.get(key)` except `type_code`, whose `raw.get` call carries the default
`""` in the source. -/
def mkPermitRec (raw : RawRecord) (pd : Option Int) (braw : String)
    (appd issd lat lon : Value) : PermitRec :=
  { external_id := rawGet raw "no_demande"
    permit_id := rawGet raw "id_permis"
    application_date := appd
    issue_date := issd
    processing_days := pd
    address := rawGet raw "emplacement"
    borough_raw := braw
    borough_normalized := normalize_borough braw
    type_code := rawGetD raw "code_type_base_demande" (.str "")
    type_description := rawGet raw "description_type_demande"
    building_type := rawGet raw "description_type_batiment"
    building_category := rawGet raw "description_categorie_batiment"
    work_nature := rawGet raw "nature_travaux"
    housing_units := rawGet raw "nb_logements"
    latitude := lat
    longitude := lon }

/-- Model of `process_permit`: the steps are sequenced in the evaluation order
of the source (the `try` block, then borough normalization, then the field
slicing and coordinate conversion of the output dict literal), so the first
exception raised is the one that escapes. -/
def process_permit (raw : RawRecord) : Except PyError PermitRec :=
  match daysStep raw with
  | .error e => .error e
  | .ok pd =>
    match boroughStep raw with
    | .error e => .error e
    | .ok braw =>
      match sliceField (rawGet raw "date_debut") with
      | .error e => .error e
      | .ok appd =>
        match sliceField (rawGet raw "date_emission") with
        | .error e => .error e
        | .ok issd =>
          match coordField (rawGet raw "latitude") with
          | .error e => .error e
          | .ok lat =>
            match coordField (rawGet raw "longitude") with
            | .error e => .error e
            | .ok lon => .ok (mkPermitRec raw pd braw appd issd lat lon)

/-- Test for the raw field values that never make `process_permit` raise on
the date or borough paths: a string or `None` (a missing key reads as `None`). -/
def isStrOrNull : Value → Bool
  | .str _ => true
  | .null => true
  | _ => false

/-- The day difference of two optional parsed dates, kept only when both dates
are available and the difference is non-negative. -/
def specDiff : Option PyDate → Option PyDate → Option Int
  | some d1, some d2 =>
    let diff : Int := (d2.toOrdinal : Int) - (d1.toOrdinal : Int)
    if diff < 0 then none else some diff
  | _, _ => none

/-- The value of `processing_days` as the spec words it: the integer day
difference exactly when both raw date fields hold parseable date strings and
the difference is non-negative, `None` in every other case. Stated from the
spec for comparison with the code path. -/
def specProcessingDays (raw : RawRecord) : Option Int :=
  match rawGet raw "date_debut", rawGet raw "date_emission" with
  | .str s1, .str s2 =>
    specDiff (pyFromisoformatDate (pyReplaceZ s1)) (pyFromisoformatDate (pyReplaceZ s2))
  | _, _ => none

/-- Round-half-even of a rational to an integer, the rounding mode of Python
`round` (Python rounds binary floats; the model rounds the exact value). -/
def roundHalfEven (q : ℚ) : ℤ :=
  if q - ⌊q⌋ < 1/2 then ⌊q⌋
  else if 1/2 < q - ⌊q⌋ then ⌊q⌋ + 1
  else if Even ⌊q⌋ then ⌊q⌋ else ⌊q⌋ + 1

/-- Model of Python `round(q, n)` for `n` decimal digits. -/
def pyRound (q : ℚ) (n : ℕ) : ℚ :=
  (roundHalfEven (q * 10 ^ n) : ℚ) / 10 ^ n

/-- The per-borough stats dict produced by `compute_borough_stats`, with
numeric outputs as exact rationals. -/
structure BoroughStats where
  borough : String
  year : Int
  total_permits : Nat
  permits_issued : Nat
  permits_pending : Nat
  median_processing_days : ℚ
  avg_processing_days : ℚ
  p90_processing_days : ℚ
  pct_within_90_days : ℚ
  pct_within_120_days : ℚ
deriving DecidableEq, Repr

/-- The duration sub-population of a borough group: `processing_days` of the
issued permits, kept when non-null and non-negative, sorted ascending, as in
the `days = sorted([...])` line of the source. -/
def sortedDays (borough_permits : List PermitRec) : List Int :=
  List.insertionSort (· ≤ ·)
    ((borough_permits.filter (fun p => p.issue_date.truthy)).filterMap
      (fun p => match p.processing_days with
        | some d => if 0 ≤ d then some d else none
        | none => none))

/-- The loop body of `compute_borough_stats` for one borough group. The index
`int(len(days) * 0.9)` is modelled as `9 * n / 10` in exact arithmetic
(the float product `n * 0.9` truncates to that same value for every list
length `n` arising here). In-range list indexing is modelled with `getD 0`. -/
def statsForGroup (year : Int) (borough : String) (borough_permits : List PermitRec) :
    BoroughStats :=
  let total := borough_permits.length
  let issued := borough_permits.filter (fun p => p.issue_date.truthy)
  let pending := total - issued.length
  let days := sortedDays borough_permits
  let n := days.length
  let median : ℚ :=
    if n = 0 then 0
    else if n % 2 ≠ 0 then ((days.getD (n / 2) 0 : ℤ) : ℚ)
    else (((days.getD (n / 2 - 1) 0 + days.getD (n / 2) 0 : ℤ) : ℚ)) / 2
  let avg : ℚ := if n = 0 then 0 else ((days.sum : ℤ) : ℚ) / (n : ℚ)
  let p90 : ℚ := if n = 0 then 0 else ((days.getD (min (9 * n / 10) (n - 1)) 0 : ℤ) : ℚ)
  let within90 : ℚ := if n = 0 then 0 else ((days.countP (fun d => decide (d ≤ 90)) : ℚ) / n) * 100
  let within120 : ℚ := if n = 0 then 0 else ((days.countP (fun d => decide (d ≤ 120)) : ℚ) / n) * 100
  { borough := borough
    year := year
    total_permits := total
    permits_issued := issued.length
    permits_pending := pending
    median_processing_days := pyRound median 1
    avg_processing_days := pyRound avg 1
    p90_processing_days := pyRound p90 1
    pct_within_90_days := pyRound within90 2
    pct_within_120_days := pyRound within120 2 }

/-- One step of the grouping loop: append permit `p` to the group of key `k`,
creating the group at the end when the key is new (insertion order of a
Python `defaultdict(list)`). -/
def addToGroups : List (String × List PermitRec) → String → PermitRec →
    List (String × List PermitRec)
  | [], k, p => [(k, [p])]
  | (k2, ps) :: rest, k, p =>
    if k2 = k then (k2, ps ++ [p]) :: rest else (k2, ps) :: addToGroups rest k p

/-- The body of the grouping loop of `compute_borough_stats`: permits with an
empty `borough_normalized` are skipped. -/
def groupStep (gs : List (String × List PermitRec)) (p : PermitRec) :
    List (String × List PermitRec) :=
  if p.borough_normalized ≠ "" then addToGroups gs p.borough_normalized p else gs

/-- The `by_borough` mapping of `compute_borough_stats`, as an insertion-ordered
association list. -/
def byBorough (permits : List PermitRec) : List (String × List PermitRec) :=
  permits.foldl groupStep []

/-- Key order on borough groups, the order used by `sorted(by_borough.items())`
(dict keys are distinct, so Python tuple comparison never reaches the values). -/
def keyLe (a b : String × List PermitRec) : Prop := a.1 ≤ b.1

instance : DecidableRel keyLe := fun a b => inferInstanceAs (Decidable (a.1 ≤ b.1))

instance : IsTotal (String × List PermitRec) keyLe := ⟨fun a b => le_total a.1 b.1⟩

instance : IsTrans (String × List PermitRec) keyLe := ⟨fun _ _ _ h h2 => le_trans h h2⟩

/-- Model of `compute_borough_stats`: group the permits by normalized borough,
sort the groups by borough name, and compute the stats of each group. -/
def compute_borough_stats (permits : List PermitRec) (year : Int) : List BoroughStats :=
  (List.insertionSort keyLe (byBorough permits)).map
    (fun g => statsForGroup year g.1 g.2)

/-- The processing comprehension of `main`: the first exception aborts the
batch, as in the source (which has no per-record handler). -/
def processAll : List RawRecord → Except PyError (List PermitRec)
  | [] => .ok []
  | r :: rs =>
    match process_permit r with
    | .error e => .error e
    | .ok p =>
      match processAll rs with
      | .error e => .error e
      | .ok ps => .ok (p :: ps)

/-- The filtering step of `main`: keep the processed records whose
`application_date` is truthy. -/
def keepWithApplicationDate (l : List PermitRec) : List PermitRec :=
  l.filter (fun p => p.application_date.truthy)

/-- The per-year core pipeline of `main`: process every raw record, drop the
records with no application date, and aggregate the rest. -/
def runPipeline (raws : List RawRecord) (year : Int) :
    Except PyError (List PermitRec × List BoroughStats) :=
  match processAll raws with
  | .error e => .error e
  | .ok l =>
    let processed := keepWithApplicationDate l
    .ok (processed, compute_borough_stats processed year)

/-! Concrete records used to instantiate the conditional theorems below. -/

/-- A well-formed raw record with both dates, the worked example of the spec. -/
def demoRawC1 : RawRecord :=
  [("date_debut", .str "2024-01-10T00:00:00Z"), ("date_emission", .str "2024-03-20T00:00:00Z")]

/-- The record `process_permit` produces for `demoRawC1`. -/
def demoRecC1 : PermitRec :=
  { external_id := .null, permit_id := .null, application_date := .str "2024-01-10",
    issue_date := .str "2024-03-20", processing_days := some 70, address := .null,
    borough_raw := "", borough_normalized := "", type_code := .str "",
    type_description := .null, building_type := .null, building_category := .null,
    work_nature := .null, housing_units := .null, latitude := .null, longitude := .null }

/-- A raw record whose `date_debut` is a truthy number. -/
def cexRawNumericDate : RawRecord :=
  [("date_debut", .int 5), ("date_emission", .str "2024-01-01")]

/-- A raw record whose `date_debut` is a present but unparseable string. -/
def cexRawBadDate : RawRecord := [("date_debut", .str "not-a-date")]

/-- The record `process_permit` produces for `cexRawBadDate`. -/
def cexRecBadDate : PermitRec :=
  { external_id := .null, permit_id := .null, application_date := .str "not-a-date",
    issue_date := .null, processing_days := none, address := .null,
    borough_raw := "", borough_normalized := "", type_code := .str "",
    type_description := .null, building_type := .null, building_category := .null,
    work_nature := .null, housing_units := .null, latitude := .null, longitude := .null }

/-- The record `process_permit` produces for the empty raw record. -/
def cexRecEmptyRaw : PermitRec :=
  { external_id := .null, permit_id := .null, application_date := .null,
    issue_date := .null, processing_days := none, address := .null,
    borough_raw := "", borough_normalized := "", type_code := .str "",
    type_description := .null, building_type := .null, building_category := .null,
    work_nature := .null, housing_units := .null, latitude := .null, longitude := .null }

/-- A raw record with a malformed date string and safe other fields. -/
def demoRawSafe : RawRecord :=
  [("date_debut", .str "garbage"), ("date_emission", .null),
   ("arrondissement", .str "Sud-Ouest"), ("latitude", .int 45)]

/-- An issued permit of borough `b` with the given processing days, for
exercising the aggregator. -/
def demoPermit (b : String) (pd : Option Int) : PermitRec :=
  { external_id := .null, permit_id := .null, application_date := .str "2024-01-10",
    issue_date := .str "2024-02-01", processing_days := pd, address := .null,
    borough_raw := b, borough_normalized := b, type_code := .str "",
    type_description := .null, building_type := .null, building_category := .null,
    work_nature := .null, housing_units := .null, latitude := .null, longitude := .null }

/-- The aggregator scenario of the spec: one borough with processing days
10, 20, 30 and 40. -/
def demoGroup : List PermitRec :=
  [demoPermit "Le Sud-Ouest" (some 10), demoPermit "Le Sud-Ouest" (some 20),
   demoPermit "Le Sud-Ouest" (some 30), demoPermit "Le Sud-Ouest" (some 40)]

/-- A raw batch for the pipeline: one record with no `date_debut`, one with a
`date_debut` but no `date_emission`. -/
def demoRawBatch : List RawRecord :=
  [[("arrondissement", .str "Sud-Ouest")],
   [("date_debut", .str "2024-01-10T00:00:00Z"), ("arrondissement", .str "Sud-Ouest")]]

/-- The stats entry the aggregator produces for `demoGroup`. -/
def demoStatsEntry : BoroughStats :=
  { borough := "Le Sud-Ouest", year := 2024, total_permits := 4, permits_issued := 4,
    permits_pending := 0, median_processing_days := 25, avg_processing_days := 25,
    p90_processing_days := 40, pct_within_90_days := 100, pct_within_120_days := 100 }

/-- The median as the spec words it: middle element for an odd count, mean of
the two middle elements for an even count. Stated from the spec for comparison
with the aggregator. -/
def claimMedian (days : List Int) : ℚ :=
  if days.length % 2 = 1 then ((days.getD (days.length / 2) 0 : ℤ) : ℚ)
  else (((days.getD (days.length / 2 - 1) 0 + days.getD (days.length / 2) 0 : ℤ) : ℚ)) / 2

/-- The ninetieth percentile as the spec words it: the element at index
`floor(0.9 n)` clamped to `n - 1`, nearest-rank without interpolation. Stated
from the spec for comparison with the aggregator. -/
def claimP90 (days : List Int) : ℚ :=
  ((days.getD (min (9 * days.length / 10) (days.length - 1)) 0 : ℤ) : ℚ)

/-- The permits of borough `k` in input order: the content the grouping loop
of `compute_borough_stats` accumulates for key `k`. -/
def grpFilter (k : String) (permits : List PermitRec) : List PermitRec :=
  permits.filter (fun p => p.borough_normalized = k)

/-- The record processed from the first demo batch entry (no `date_debut`). -/
def demoBatchRec1 : PermitRec :=
  { external_id := .null, permit_id := .null, application_date := .null,
    issue_date := .null, processing_days := none, address := .null,
    borough_raw := "Sud-Ouest", borough_normalized := "Le Sud-Ouest",
    type_code := .str "", type_description := .null, building_type := .null,
    building_category := .null, work_nature := .null, housing_units := .null,
    latitude := .null, longitude := .null }

/-- The record processed from the second demo batch entry (`date_debut` only). -/
def demoBatchRec2 : PermitRec :=
  { external_id := .null, permit_id := .null, application_date := .str "2024-01-10",
    issue_date := .null, processing_days := none, address := .null,
    borough_raw := "Sud-Ouest", borough_normalized := "Le Sud-Ouest",
    type_code := .str "", type_description := .null, building_type := .null,
    building_category := .null, work_nature := .null, housing_units := .null,
    latitude := .null, longitude := .null }

/-! Helper lemmas about the cleanup step of `normalize_borough`. -/

theorem dropWhile_idem (p : Char → Bool) (l : List Char) :
    (l.dropWhile p).dropWhile p = l.dropWhile p := by
  induction l with
  | nil => rfl
  | cons a t ih =>
    by_cases h : p a
    · simp [List.dropWhile_cons, h, ih]
    · simp [List.dropWhile_cons, h]

theorem dropWhile_head_not (p : Char → Bool) (l : List Char) :
    l.dropWhile p = [] ∨ ∃ a t, l.dropWhile p = a :: t ∧ p a = false := by
  induction l with
  | nil => exact Or.inl rfl
  | cons a t ih =>
    by_cases h : p a
    · simpa [List.dropWhile_cons, h] using ih
    · exact Or.inr ⟨a, t, by simp [List.dropWhile_cons, h], by simp [h]⟩

theorem pyLStripList_idem (l : List Char) :
    pyLStripList (pyLStripList l) = pyLStripList l :=
  dropWhile_idem pyIsSpace l

theorem pyRStripList_idem (l : List Char) :
    pyRStripList (pyRStripList l) = pyRStripList l := by
  unfold pyRStripList
  rw [List.reverse_reverse, dropWhile_idem]

theorem pyLStripList_pyRStripList (l : List Char) :
    pyLStripList (pyRStripList (pyLStripList l)) = pyRStripList (pyLStripList l) := by
  rcases dropWhile_head_not pyIsSpace l with h0 | ⟨a, t, h1, h2⟩
  · have hL : pyLStripList l = [] := h0
    rw [hL]
    rfl
  · have hrev : (pyRStripList (pyLStripList l)).reverse =
        List.dropWhile pyIsSpace (pyLStripList l).reverse := by
      show (List.dropWhile pyIsSpace (pyLStripList l).reverse).reverse.reverse = _
      rw [List.reverse_reverse]
    have hpre : pyRStripList (pyLStripList l) <+: pyLStripList l := by
      rw [← List.reverse_suffix, hrev]
      exact List.dropWhile_suffix pyIsSpace
    obtain ⟨s, hs⟩ := hpre
    cases hy : pyRStripList (pyLStripList l) with
    | nil => rfl
    | cons b u =>
      rw [hy] at hs
      have h1x : pyLStripList l = a :: t := h1
      rw [h1x] at hs
      have hcons : b :: (u ++ s) = a :: t := hs
      have hb : b = a := ((List.cons.injEq _ _ _ _).mp hcons).1
      show List.dropWhile pyIsSpace (b :: u) = b :: u
      rw [List.dropWhile_cons, hb, h2]
      simp

theorem stripFull_idem (l : List Char) :
    pyRStripList (pyLStripList (pyRStripList (pyLStripList l))) =
      pyRStripList (pyLStripList l) := by
  rw [pyLStripList_pyRStripList, pyRStripList_idem]

theorem dropWhile_map_space (f : Char → Char) (hf : ∀ c, pyIsSpace (f c) = pyIsSpace c)
    (l : List Char) :
    List.dropWhile pyIsSpace (l.map f) = (List.dropWhile pyIsSpace l).map f := by
  induction l with
  | nil => rfl
  | cons a t ih =>
    by_cases h : pyIsSpace a
    · simp only [List.map_cons, List.dropWhile_cons, hf a, h]
      simpa [h] using ih
    · simp [List.dropWhile_cons, hf a, h]

theorem pyLStripList_map (f : Char → Char) (hf : ∀ c, pyIsSpace (f c) = pyIsSpace c)
    (l : List Char) : pyLStripList (l.map f) = (pyLStripList l).map f :=
  dropWhile_map_space f hf l

theorem pyRStripList_map (f : Char → Char) (hf : ∀ c, pyIsSpace (f c) = pyIsSpace c)
    (l : List Char) : pyRStripList (l.map f) = (pyRStripList l).map f := by
  show (List.dropWhile pyIsSpace (l.map f).reverse).reverse =
    ((List.dropWhile pyIsSpace l.reverse).reverse).map f
  have h1 : (l.map f).reverse = l.reverse.map f := by simp
  rw [h1, dropWhile_map_space f hf]
  simp

theorem map_eq_self_of_not_mem (a b : Char) (l : List Char) (hl : ∀ c ∈ l, c ≠ a) :
    l.map (fun c => if c = a then b else c) = l := by
  have : l.map (fun c => if c = a then b else c) = l.map id :=
    List.map_congr_left (fun c hc => by simp [hl c hc])
  simpa using this

theorem not_mem_map_replace (a b : Char) (hb : b ≠ a) (l : List Char) :
    ∀ c ∈ l.map (fun c => if c = a then b else c), c ≠ a := by
  intro c hc
  obtain ⟨x, _, hx⟩ := List.mem_map.mp hc
  by_cases hxa : x = a
  · rw [← hx]; simp [hxa, hb]
  · rw [← hx]; simp [hxa]

theorem not_mem_map_replace_other (a a2 b : Char) (hb : b ≠ a2) (l : List Char)
    (hl : ∀ c ∈ l, c ≠ a2) :
    ∀ c ∈ l.map (fun c => if c = a then b else c), c ≠ a2 := by
  intro c hc
  obtain ⟨x, hxl, hx⟩ := List.mem_map.mp hc
  by_cases hxa : x = a
  · rw [← hx]; simp [hxa, hb]
  · rw [← hx]; simp [hxa]; exact hl x hxl

theorem cleanName_data (s : String) :
    (cleanName s).data =
      ((pyRStripList (pyLStripList s.data)).map (fun c => if c = '—' then '-' else c)).map
        (fun c => if c = '–' then '-' else c) := rfl

theorem dash_em_space (c : Char) :
    pyIsSpace ((fun c => if c = '—' then '-' else c) c) = pyIsSpace c := by
  by_cases h : c = '—'
  · subst h; decide
  · simp [h]

theorem dash_en_space (c : Char) :
    pyIsSpace ((fun c => if c = '–' then '-' else c) c) = pyIsSpace c := by
  by_cases h : c = '–'
  · subst h; decide
  · simp [h]

theorem cleanName_idem (s : String) : cleanName (cleanName s) = cleanName s := by
  apply String.ext
  rw [cleanName_data (cleanName s), cleanName_data s]
  set l0 := pyRStripList (pyLStripList s.data) with hl0
  set t := (l0.map (fun c => if c = '—' then '-' else c)).map (fun c => if c = '–' then '-' else c)
    with ht
  have hstrip : pyRStripList (pyLStripList t) = t := by
    rw [ht, pyLStripList_map _ dash_en_space, pyRStripList_map _ dash_en_space,
      pyLStripList_map _ dash_em_space, pyRStripList_map _ dash_em_space, hl0, stripFull_idem]
  rw [hstrip]
  have hnoEm : ∀ c ∈ t, c ≠ '—' := by
    rw [ht]
    exact not_mem_map_replace_other '–' '—' '-' (by decide) _
      (not_mem_map_replace '—' '-' (by decide) l0)
  have hnoEn : ∀ c ∈ t, c ≠ '–' := not_mem_map_replace '–' '-' (by decide) _
  rw [map_eq_self_of_not_mem _ _ _ hnoEm, map_eq_self_of_not_mem _ _ _ hnoEn]

theorem assocFind_mem {β : Type} (k : String) (v : β) :
    ∀ l : List (String × β), assocFind k l = some v → (k, v) ∈ l := by
  intro l
  induction l with
  | nil => intro h; cases h
  | cons kv rest ih =>
    intro h
    obtain ⟨k2, v2⟩ := kv
    by_cases hk : k2 = k
    · rw [assocFind, if_pos hk] at h
      subst hk
      injection h with h
      subst h
      exact List.mem_cons_self _ _
    · rw [assocFind, if_neg hk] at h
      exact List.mem_cons_of_mem _ (ih h)

theorem alias_values_fixed :
    ∀ kv ∈ BOROUGH_ALIASES, normalize_borough kv.2 = kv.2 := by decide

/-- Claim C5: `normalize_borough` maps the aliased inputs of the spec to the
canonical names, the em-dash-joined double name collapsing to its hyphen-joined
form. -/
theorem normalize_borough_alias_examples :
    normalize_borough "Plateau Mont-Royal" = "Le Plateau-Mont-Royal" ∧
      normalize_borough "Côte-des-Neiges—Notre-Dame-de-Grâce" =
        "Côte-des-Neiges-Notre-Dame-de-Grâce" := by
  constructor <;> decide

/-- Claim C6: `normalize_borough` is idempotent on every string, aliased or
not, empty or not. -/
theorem normalize_borough_idem (x : String) :
    normalize_borough (normalize_borough x) = normalize_borough x := by
  by_cases hx : x = ""
  · simp [normalize_borough, hx]
  · have hxr : normalize_borough x =
        (assocFind (cleanName x) BOROUGH_ALIASES).getD (cleanName x) := by
      rw [normalize_borough, if_neg hx]
    rw [hxr]
    cases hl : assocFind (cleanName x) BOROUGH_ALIASES with
    | some v =>
      simp only [Option.getD_some]
      exact alias_values_fixed _ (assocFind_mem _ _ _ hl)
    | none =>
      simp only [Option.getD_none]
      by_cases hc : cleanName x = ""
      · simp [normalize_borough, hc]
      · have h2 : normalize_borough (cleanName x) =
            (assocFind (cleanName (cleanName x)) BOROUGH_ALIASES).getD
              (cleanName (cleanName x)) := by
          rw [normalize_borough, if_neg hc]
        rw [h2, cleanName_idem, hl, Option.getD_none]

-- scratch checks, to be removed

/-! Inversion and construction lemmas for `process_permit`. -/

theorem process_permit_ok_build (raw : RawRecord) (pd : Option Int) (braw : String)
    (appd issd lat lon : Value)
    (h1 : daysStep raw = .ok pd) (h2 : boroughStep raw = .ok braw)
    (h3 : sliceField (rawGet raw "date_debut") = .ok appd)
    (h4 : sliceField (rawGet raw "date_emission") = .ok issd)
    (h5 : coordField (rawGet raw "latitude") = .ok lat)
    (h6 : coordField (rawGet raw "longitude") = .ok lon) :
    process_permit raw = .ok (mkPermitRec raw pd braw appd issd lat lon) := by
  rw [process_permit, h1, h2, h3, h4, h5, h6]

theorem process_permit_ok_elim (raw : RawRecord) (rec : PermitRec)
    (h : process_permit raw = .ok rec) :
    ∃ pd braw appd issd lat lon,
      daysStep raw = .ok pd ∧ boroughStep raw = .ok braw ∧
      sliceField (rawGet raw "date_debut") = .ok appd ∧
      sliceField (rawGet raw "date_emission") = .ok issd ∧
      coordField (rawGet raw "latitude") = .ok lat ∧
      coordField (rawGet raw "longitude") = .ok lon ∧
      rec = mkPermitRec raw pd braw appd issd lat lon := by
  rw [process_permit] at h
  split at h
  · exact Except.noConfusion h
  · split at h
    · exact Except.noConfusion h
    · split at h
      · exact Except.noConfusion h
      · split at h
        · exact Except.noConfusion h
        · split at h
          · exact Except.noConfusion h
          · split at h
            · exact Except.noConfusion h
            · injection h with h
              refine ⟨_, _, _, _, _, _, ?_, ?_, ?_, ?_, ?_, ?_, h.symm⟩ <;> assumption

theorem tryProcessingDays_str_str (s1 s2 : String) :
    tryProcessingDays (.str s1) (.str s2) =
      .ok (specDiff (pyFromisoformatDate (pyReplaceZ s1)) (pyFromisoformatDate (pyReplaceZ s2))) := by
  cases hp1 : pyFromisoformatDate (pyReplaceZ s1) with
  | none => simp [tryProcessingDays, specDiff, hp1]
  | some d1 =>
    cases hp2 : pyFromisoformatDate (pyReplaceZ s2) with
    | none => simp [tryProcessingDays, specDiff, hp1, hp2]
    | some d2 => simp [tryProcessingDays, specDiff, hp1, hp2]

theorem parse_empty_none : pyFromisoformatDate (pyReplaceZ "") = none := rfl

theorem specDiff_nonneg (o1 o2 : Option PyDate) (n : Int) (h : specDiff o1 o2 = some n) :
    0 ≤ n := by
  cases o1 with
  | none => exact Option.noConfusion h
  | some d1 =>
    cases o2 with
    | none => exact Option.noConfusion h
    | some d2 =>
      simp only [specDiff] at h
      split at h
      · exact Option.noConfusion h
      · injection h with h
        omega

theorem specProcessingDays_nonneg (raw : RawRecord) (n : Int)
    (h : specProcessingDays raw = some n) : 0 ≤ n := by
  unfold specProcessingDays at h
  split at h
  · exact specDiff_nonneg _ _ n h
  · exact Option.noConfusion h

theorem daysStep_ok_spec (raw : RawRecord) (pd : Option Int)
    (h1 : daysStep raw = .ok pd) : pd = specProcessingDays raw := by
  unfold daysStep at h1
  unfold specProcessingDays
  by_cases hc : ((rawGet raw "date_debut").truthy && (rawGet raw "date_emission").truthy) = true
  · rw [if_pos hc] at h1
    cases hv1 : rawGet raw "date_debut" with
    | str s1 =>
      cases hv2 : rawGet raw "date_emission" with
      | str s2 =>
        rw [hv1, hv2] at h1
        rw [tryProcessingDays_str_str] at h1
        injection h1 with h1
        exact h1.symm
      | int n =>
        rw [hv1, hv2] at h1
        cases hp1 : pyFromisoformatDate (pyReplaceZ s1) with
        | none =>
          simp only [tryProcessingDays, hp1] at h1
          injection h1 with h1
          subst h1
          rfl
        | some d1 =>
          simp only [tryProcessingDays, hp1] at h1
          exact Except.noConfusion h1
      | float q =>
        rw [hv1, hv2] at h1
        cases hp1 : pyFromisoformatDate (pyReplaceZ s1) with
        | none =>
          simp only [tryProcessingDays, hp1] at h1
          injection h1 with h1
          subst h1
          rfl
        | some d1 =>
          simp only [tryProcessingDays, hp1] at h1
          exact Except.noConfusion h1
      | null =>
        rw [hv1, hv2] at hc
        simp [Value.truthy] at hc
    | int n =>
      rw [hv1] at h1
      exact Except.noConfusion h1
    | float q =>
      rw [hv1] at h1
      exact Except.noConfusion h1
    | null =>
      rw [hv1] at hc
      simp [Value.truthy] at hc
  · rw [if_neg hc] at h1
    injection h1 with h1
    cases hv1 : rawGet raw "date_debut" with
    | str s1 =>
      cases hv2 : rawGet raw "date_emission" with
      | str s2 =>
        rw [hv1, hv2] at hc
        simp only [Value.truthy, Bool.and_eq_true, decide_eq_true_eq] at hc
        push_neg at hc
        by_cases hs1 : s1 = ""
        · subst hs1
          show pd = specDiff (pyFromisoformatDate (pyReplaceZ ""))
            (pyFromisoformatDate (pyReplaceZ s2))
          rw [parse_empty_none, ← h1]
          cases pyFromisoformatDate (pyReplaceZ s2) <;> rfl
        · have hs2 : s2 = "" := hc hs1
          subst hs2
          show pd = specDiff (pyFromisoformatDate (pyReplaceZ s1))
            (pyFromisoformatDate (pyReplaceZ ""))
          rw [parse_empty_none, ← h1]
          cases pyFromisoformatDate (pyReplaceZ s1) <;> rfl
      | int m => exact h1.symm
      | float q => exact h1.symm
      | null => exact h1.symm
    | int m => exact h1.symm
    | float q => exact h1.symm
    | null => exact h1.symm

theorem sliceField_strOrNull_ok (v : Value) (hv : isStrOrNull v = true) :
    ∃ a, sliceField v = .ok a := by
  cases v with
  | str s =>
    by_cases hs : s = ""
    · subst hs
      exact ⟨.null, rfl⟩
    · exact ⟨.str (pySlice10 s), by simp [sliceField, Value.truthy, hs]⟩
  | null => exact ⟨.null, rfl⟩
  | int n => simp [isStrOrNull] at hv
  | float q => simp [isStrOrNull] at hv

theorem daysStep_strOrNull_ok (raw : RawRecord)
    (hdd : isStrOrNull (rawGet raw "date_debut") = true)
    (hde : isStrOrNull (rawGet raw "date_emission") = true) :
    ∃ pd, daysStep raw = .ok pd := by
  unfold daysStep
  by_cases hc : ((rawGet raw "date_debut").truthy && (rawGet raw "date_emission").truthy) = true
  · rw [if_pos hc]
    cases hv1 : rawGet raw "date_debut" with
    | str s1 =>
      cases hv2 : rawGet raw "date_emission" with
      | str s2 => exact ⟨_, tryProcessingDays_str_str s1 s2⟩
      | int n => rw [hv2] at hde; exact absurd hde (by simp [isStrOrNull])
      | float q => rw [hv2] at hde; exact absurd hde (by simp [isStrOrNull])
      | null => rw [hv1, hv2] at hc; simp [Value.truthy] at hc
    | int n => rw [hv1] at hdd; exact absurd hdd (by simp [isStrOrNull])
    | float q => rw [hv1] at hdd; exact absurd hdd (by simp [isStrOrNull])
    | null => rw [hv1] at hc; simp [Value.truthy] at hc
  · rw [if_neg hc]
    exact ⟨none, rfl⟩

theorem boroughStep_strOrNull_ok (raw : RawRecord)
    (hbr : isStrOrNull (rawGet raw "arrondissement") = true) :
    ∃ s, boroughStep raw = .ok s := by
  unfold boroughStep boroughRawValue
  cases hf : assocFind "arrondissement" raw with
  | none =>
    have hD : rawGetD raw "arrondissement" (.str "") = .str "" := by
      unfold rawGetD; rw [hf]; rfl
    rw [hD]
    exact ⟨"", rfl⟩
  | some v =>
    have hv : rawGet raw "arrondissement" = v := by unfold rawGet; rw [hf]; rfl
    have hD : rawGetD raw "arrondissement" (.str "") = v := by
      unfold rawGetD; rw [hf]; rfl
    rw [hD]
    rw [hv] at hbr
    cases v with
    | str s =>
      by_cases hs : s = ""
      · subst hs
        exact ⟨"", rfl⟩
      · exact ⟨s, by simp [Value.truthy, hs]⟩
    | null => exact ⟨"", rfl⟩
    | int n => simp [isStrOrNull] at hbr
    | float q => simp [isStrOrNull] at hbr

/-- Claim C1: whenever `process_permit` returns a record, its `processing_days`
equals the integer day difference issue minus application exactly when both raw
date fields hold parseable date strings and that difference is non-negative,
and is null in every other case; in particular the output `processing_days` is
never negative. -/
theorem process_permit_processing_days_spec (raw : RawRecord) (rec : PermitRec)
    (h : process_permit raw = .ok rec) :
    rec.processing_days = specProcessingDays raw ∧
      ∀ n : Int, rec.processing_days = some n → 0 ≤ n := by
  obtain ⟨pd, braw, appd, issd, lat, lon, h1, _, _, _, _, _, hrec⟩ :=
    process_permit_ok_elim raw rec h
  have hpd : rec.processing_days = pd := by rw [hrec]; rfl
  have hspec := daysStep_ok_spec raw pd h1
  refine ⟨by rw [hpd, hspec], ?_⟩
  intro n hn
  rw [hpd, hspec] at hn
  exact specProcessingDays_nonneg raw n hn

/-- Witness for C1: the worked example of the spec, seventy processing days. -/
theorem process_permit_processing_days_spec_witness :
    process_permit demoRawC1 = .ok demoRecC1 ∧
      demoRecC1.processing_days = specProcessingDays demoRawC1 ∧
      demoRecC1.processing_days = some 70 :=
  ⟨rfl, (process_permit_processing_days_spec demoRawC1 demoRecC1 rfl).1, rfl⟩

/-- Counterexample to C2 as stated: a raw record whose `date_debut` is a
truthy number makes `process_permit` raise an `AttributeError` (from
`.replace` on a non-string), which `except (ValueError, TypeError)` does not
catch, so the exception propagates to the caller. -/
theorem process_permit_numeric_date_raises :
    process_permit cexRawNumericDate = .error .attributeError := rfl

/-- Amended C2: `process_permit` returns normally — date-parse failures only
yield null derived fields — whenever the two date values and the borough value
are strings or null/absent and the coordinate conversions do not raise; a
truthy non-string date value instead raises an uncaught exception. -/
theorem process_permit_total_on_safe_fields (raw : RawRecord)
    (hdd : isStrOrNull (rawGet raw "date_debut") = true)
    (hde : isStrOrNull (rawGet raw "date_emission") = true)
    (hbr : isStrOrNull (rawGet raw "arrondissement") = true)
    (hlat : ∃ w, coordField (rawGet raw "latitude") = .ok w)
    (hlon : ∃ w, coordField (rawGet raw "longitude") = .ok w) :
    ∃ rec, process_permit raw = .ok rec := by
  obtain ⟨pd, h1⟩ := daysStep_strOrNull_ok raw hdd hde
  obtain ⟨braw, h2⟩ := boroughStep_strOrNull_ok raw hbr
  obtain ⟨appd, h3⟩ := sliceField_strOrNull_ok _ hdd
  obtain ⟨issd, h4⟩ := sliceField_strOrNull_ok _ hde
  obtain ⟨lat, h5⟩ := hlat
  obtain ⟨lon, h6⟩ := hlon
  exact ⟨_, process_permit_ok_build raw pd braw appd issd lat lon h1 h2 h3 h4 h5 h6⟩

/-- Witness for amended C2: a malformed date string record processes fine. -/
theorem process_permit_total_on_safe_fields_witness :
    isStrOrNull (rawGet demoRawSafe "date_debut") = true ∧
      ∃ rec, process_permit demoRawSafe = .ok rec :=
  ⟨rfl, process_permit_total_on_safe_fields demoRawSafe rfl rfl rfl
    ⟨.float 45, rfl⟩ ⟨.null, rfl⟩⟩

/-- Counterexample to C3 as stated: for a present but unparseable date string
the output date field is the ten-character prefix of the raw string, not null. -/
theorem process_permit_unparsed_date_not_null :
    process_permit cexRawBadDate = .ok cexRecBadDate ∧
      cexRecBadDate.application_date = Value.str "not-a-date" ∧
      Value.str "not-a-date" ≠ Value.null :=
  ⟨rfl, rfl, by decide⟩

/-- Amended C3: when a raw date field is a string that fails to parse, the
corresponding output field holds the first ten characters of the raw string
(null only when the string is empty), and `processing_days` is left null. -/
theorem process_permit_unparsed_date_truncated (raw : RawRecord) (rec : PermitRec)
    (h : process_permit raw = .ok rec) :
    (∀ s, rawGet raw "date_debut" = .str s →
        pyFromisoformatDate (pyReplaceZ s) = none →
        rec.application_date = (if s = "" then Value.null else Value.str (pySlice10 s)) ∧
          rec.processing_days = none) ∧
    (∀ s, rawGet raw "date_emission" = .str s →
        pyFromisoformatDate (pyReplaceZ s) = none →
        rec.issue_date = (if s = "" then Value.null else Value.str (pySlice10 s)) ∧
          rec.processing_days = none) := by
  obtain ⟨pd, braw, appd, issd, lat, lon, h1, h2, h3, h4, h5, h6, hrec⟩ :=
    process_permit_ok_elim raw rec h
  have hspec := daysStep_ok_spec raw pd h1
  constructor
  · intro s hv hp
    constructor
    · rw [hrec]
      show appd = _
      rw [hv] at h3
      by_cases hs : s = ""
      · subst hs
        have hx : sliceField (Value.str "") = .ok .null := rfl
        rw [hx] at h3
        injection h3 with h3
        rw [if_pos rfl]
        exact h3.symm
      · have hx : sliceField (Value.str s) = .ok (.str (pySlice10 s)) := by
          simp [sliceField, Value.truthy, hs]
        rw [hx] at h3
        injection h3 with h3
        rw [if_neg hs]
        exact h3.symm
    · rw [hrec]
      show pd = none
      rw [hspec]
      unfold specProcessingDays
      rw [hv]
      cases hv2 : rawGet raw "date_emission" with
      | str s2 =>
        show specDiff (pyFromisoformatDate (pyReplaceZ s))
          (pyFromisoformatDate (pyReplaceZ s2)) = none
        rw [hp]
        rfl
      | int n => rfl
      | float q => rfl
      | null => rfl
  · intro s hv hp
    constructor
    · rw [hrec]
      show issd = _
      rw [hv] at h4
      by_cases hs : s = ""
      · subst hs
        have hx : sliceField (Value.str "") = .ok .null := rfl
        rw [hx] at h4
        injection h4 with h4
        rw [if_pos rfl]
        exact h4.symm
      · have hx : sliceField (Value.str s) = .ok (.str (pySlice10 s)) := by
          simp [sliceField, Value.truthy, hs]
        rw [hx] at h4
        injection h4 with h4
        rw [if_neg hs]
        exact h4.symm
    · rw [hrec]
      show pd = none
      rw [hspec]
      unfold specProcessingDays
      rw [hv]
      cases hv1 : rawGet raw "date_debut" with
      | str s1 =>
        show specDiff (pyFromisoformatDate (pyReplaceZ s1))
          (pyFromisoformatDate (pyReplaceZ s)) = none
        rw [hp]
        cases pyFromisoformatDate (pyReplaceZ s1) <;> rfl
      | int n => rfl
      | float q => rfl
      | null => rfl

/-- Witness for amended C3: the unparseable string keeps its prefix. -/
theorem process_permit_unparsed_date_truncated_witness :
    process_permit cexRawBadDate = .ok cexRecBadDate ∧
      (cexRecBadDate.application_date =
          (if "not-a-date" = "" then Value.null else Value.str (pySlice10 "not-a-date")) ∧
        cexRecBadDate.processing_days = none) :=
  ⟨rfl, (process_permit_unparsed_date_truncated cexRawBadDate cexRecBadDate rfl).1
    "not-a-date" rfl rfl⟩

/-- Counterexample to C4 as stated: on a record missing
`code_type_base_demande` the output `type_code` is the empty string, a
non-null default. -/
theorem process_permit_type_code_default_cex :
    process_permit ([] : RawRecord) = .ok cexRecEmptyRaw ∧
      cexRecEmptyRaw.type_code = Value.str "" ∧ Value.str "" ≠ Value.null :=
  ⟨rfl, rfl, by decide⟩

/-- Amended C4: every passthrough field equals the raw value when the key is
present and null when it is missing (`rawGet` is exactly that mapping), except
`type_code`, which defaults to the empty string when its key is missing. -/
theorem process_permit_passthrough_fields (raw : RawRecord) (rec : PermitRec)
    (h : process_permit raw = .ok rec) :
    rec.external_id = rawGet raw "no_demande" ∧
      rec.permit_id = rawGet raw "id_permis" ∧
      rec.address = rawGet raw "emplacement" ∧
      rec.type_description = rawGet raw "description_type_demande" ∧
      rec.building_type = rawGet raw "description_type_batiment" ∧
      rec.building_category = rawGet raw "description_categorie_batiment" ∧
      rec.work_nature = rawGet raw "nature_travaux" ∧
      rec.housing_units = rawGet raw "nb_logements" ∧
      (assocFind "no_demande" raw = none → rec.external_id = Value.null) ∧
      (∀ v, assocFind "no_demande" raw = some v → rec.external_id = v) ∧
      rec.type_code = rawGetD raw "code_type_base_demande" (Value.str "") ∧
      (assocFind "code_type_base_demande" raw = none → rec.type_code = Value.str "") := by
  obtain ⟨pd, braw, appd, issd, lat, lon, _, _, _, _, _, _, hrec⟩ :=
    process_permit_ok_elim raw rec h
  subst hrec
  refine ⟨rfl, rfl, rfl, rfl, rfl, rfl, rfl, rfl, ?_, ?_, rfl, ?_⟩
  · intro hf
    show rawGet raw "no_demande" = Value.null
    unfold rawGet
    rw [hf]
    rfl
  · intro v hf
    show rawGet raw "no_demande" = v
    unfold rawGet
    rw [hf]
    rfl
  · intro hf
    show rawGetD raw "code_type_base_demande" (Value.str "") = Value.str ""
    unfold rawGetD
    rw [hf]
    rfl

/-- Witness for amended C4 at the empty raw record. -/
theorem process_permit_passthrough_fields_witness :
    process_permit ([] : RawRecord) = .ok cexRecEmptyRaw ∧
      cexRecEmptyRaw.external_id = rawGet [] "no_demande" :=
  ⟨rfl, (process_permit_passthrough_fields [] cexRecEmptyRaw rfl).1⟩

/-! Lemmas about the rounding model and the aggregator statistics. -/

theorem roundHalfEven_intCast (n : ℤ) : roundHalfEven (n : ℚ) = n := by
  unfold roundHalfEven
  rw [Int.floor_intCast]
  norm_num

theorem pyRound_one_eq_self (q : ℚ) (m : ℤ) (h : q * 10 = (m : ℚ)) :
    pyRound q 1 = q := by
  unfold pyRound
  rw [pow_one, h, roundHalfEven_intCast, ← h]
  ring

theorem pyRound_one_int (m : ℤ) : pyRound (m : ℚ) 1 = (m : ℚ) :=
  pyRound_one_eq_self _ (10 * m) (by push_cast; ring)

theorem pyRound_one_half (a b : ℤ) :
    pyRound (((a + b : ℤ) : ℚ) / 2) 1 = ((a + b : ℤ) : ℚ) / 2 :=
  pyRound_one_eq_self _ (5 * (a + b)) (by push_cast; ring)

theorem roundHalfEven_mono {x y : ℚ} (h : x ≤ y) :
    roundHalfEven x ≤ roundHalfEven y := by
  unfold roundHalfEven
  have hfl : ⌊x⌋ ≤ ⌊y⌋ := Int.floor_le_floor h
  by_cases heq : ⌊x⌋ = ⌊y⌋
  · have hr : x - (⌊x⌋ : ℚ) ≤ y - (⌊y⌋ : ℚ) := by
      rw [heq]
      linarith
    split_ifs <;>
      first
        | omega
        | (exfalso; linarith)
        | (simp only [Int.even_iff] at *; omega)
  · have hlt : ⌊x⌋ + 1 ≤ ⌊y⌋ := by omega
    split_ifs <;> omega

theorem pyRound_mono (n : ℕ) {q1 q2 : ℚ} (h : q1 ≤ q2) :
    pyRound q1 n ≤ pyRound q2 n := by
  unfold pyRound
  have hm : roundHalfEven (q1 * 10 ^ n) ≤ roundHalfEven (q2 * 10 ^ n) :=
    roundHalfEven_mono (mul_le_mul_of_nonneg_right h (by positivity))
  have h10 : (0 : ℚ) ≤ 10 ^ n := by positivity
  exact div_le_div_of_nonneg_right (by exact_mod_cast hm) h10

theorem pyRound_eq_self (n : ℕ) (q : ℚ) (m : ℤ) (h : q * 10 ^ n = (m : ℚ)) :
    pyRound q n = q := by
  unfold pyRound
  rw [h, roundHalfEven_intCast, ← h]
  exact mul_div_cancel_right₀ q (by positivity)

theorem demo_statsForGroup_eval :
    statsForGroup 2024 "Le Sud-Ouest" demoGroup = demoStatsEntry := by
  have hshape : statsForGroup 2024 "Le Sud-Ouest" demoGroup =
      { borough := "Le Sud-Ouest", year := 2024, total_permits := 4, permits_issued := 4,
        permits_pending := 0,
        median_processing_days := pyRound (((20 + 30 : ℤ) : ℚ) / 2) 1,
        avg_processing_days := pyRound (((100 : ℤ) : ℚ) / ((4 : ℕ) : ℚ)) 1,
        p90_processing_days := pyRound ((40 : ℤ) : ℚ) 1,
        pct_within_90_days := pyRound ((((4 : ℕ) : ℚ) / ((4 : ℕ) : ℚ)) * 100) 2,
        pct_within_120_days := pyRound ((((4 : ℕ) : ℚ) / ((4 : ℕ) : ℚ)) * 100) 2 } := rfl
  rw [hshape]
  have h1 : pyRound (((20 + 30 : ℤ) : ℚ) / 2) 1 = 25 := by
    rw [pyRound_one_half]
    norm_num
  have h2 : pyRound (((100 : ℤ) : ℚ) / ((4 : ℕ) : ℚ)) 1 = 25 := by
    rw [pyRound_eq_self 1 _ 250 (by norm_num)]
    norm_num
  have h3 : pyRound ((40 : ℤ) : ℚ) 1 = 40 := by
    rw [pyRound_one_int]
    norm_num
  have h4 : pyRound ((((4 : ℕ) : ℚ) / ((4 : ℕ) : ℚ)) * 100) 2 = 100 := by
    rw [pyRound_eq_self 2 _ 10000 (by norm_num)]
    norm_num
  rw [h1, h2, h3, h4]
  rfl

theorem demo_stats_eval : compute_borough_stats demoGroup 2024 = [demoStatsEntry] := by
  have hmap : compute_borough_stats demoGroup 2024 =
      [statsForGroup 2024 "Le Sud-Ouest" demoGroup] := rfl
  rw [hmap, demo_statsForGroup_eval]

/-- Claim C7: in each aggregator group with a non-empty duration
sub-population the median is the middle element for an odd count and the mean
of the two middle elements for an even count, the p90 is the element at index
`floor(0.9 n)` clamped to `n - 1` (nearest rank, no interpolation), and the
spec scenario `[10, 20, 30, 40]` yields median `25.0`, p90 `40` and
`pct_within_90_days = 100.0`. -/
theorem compute_borough_stats_median_p90 (year : Int) (b : String)
    (gp : List PermitRec) (hne : sortedDays gp ≠ []) :
    ((statsForGroup year b gp).median_processing_days = claimMedian (sortedDays gp) ∧
      (statsForGroup year b gp).p90_processing_days = claimP90 (sortedDays gp)) ∧
    ((compute_borough_stats demoGroup 2024).map BoroughStats.median_processing_days = [25] ∧
      (compute_borough_stats demoGroup 2024).map BoroughStats.p90_processing_days = [40] ∧
      (compute_borough_stats demoGroup 2024).map BoroughStats.pct_within_90_days = [100]) := by
  have hn0 : (sortedDays gp).length ≠ 0 := fun hl => hne (List.length_eq_zero.mp hl)
  constructor
  · constructor
    · simp only [statsForGroup]
      rw [if_neg hn0]
      unfold claimMedian
      by_cases hodd : (sortedDays gp).length % 2 = 1
      · rw [if_pos (by omega : (sortedDays gp).length % 2 ≠ 0), pyRound_one_int,
          if_pos hodd]
      · rw [if_neg (by omega : ¬(sortedDays gp).length % 2 ≠ 0), pyRound_one_half,
          if_neg hodd]
    · simp only [statsForGroup]
      rw [if_neg hn0, pyRound_one_int]
      rfl
  · refine ⟨?_, ?_, ?_⟩ <;> rw [demo_stats_eval] <;> rfl

/-- Witness for C7: the demo group has a non-empty duration sub-population and
its median matches the claim formula. -/
theorem compute_borough_stats_median_p90_witness :
    sortedDays demoGroup ≠ [] ∧
      (statsForGroup 2024 "Le Sud-Ouest" demoGroup).median_processing_days =
        claimMedian (sortedDays demoGroup) :=
  ⟨by decide,
    ((compute_borough_stats_median_p90 2024 "Le Sud-Ouest" demoGroup (by decide)).1).1⟩

theorem statsForGroup_pct_mono (year : Int) (b : String) (gp : List PermitRec) :
    (statsForGroup year b gp).pct_within_90_days ≤
      (statsForGroup year b gp).pct_within_120_days := by
  simp only [statsForGroup]
  by_cases hn : (sortedDays gp).length = 0
  · rw [if_pos hn, if_pos hn]
  · rw [if_neg hn, if_neg hn]
    apply pyRound_mono
    have hc : (((sortedDays gp).countP (fun d => decide (d ≤ 90)) : ℕ) : ℚ) ≤
        (((sortedDays gp).countP (fun d => decide (d ≤ 120)) : ℕ) : ℚ) := by
      have hcc := List.countP_mono_left (l := sortedDays gp)
        (p := fun d => decide (d ≤ 90)) (q := fun d => decide (d ≤ 120))
        (fun a _ h => by
          simp only [decide_eq_true_eq] at *
          omega)
      exact_mod_cast hcc
    exact mul_le_mul_of_nonneg_right
      (div_le_div_of_nonneg_right hc (by positivity)) (by norm_num)

/-- Claim C10: every aggregator entry has `pct_within_120_days` at least
`pct_within_90_days`: the counting predicate for one hundred twenty days
subsumes the ninety-day one and the two-decimal rounding is monotone. -/
theorem compute_borough_stats_pct_within_mono (permits : List PermitRec) (year : Int)
    (e : BoroughStats) (he : e ∈ compute_borough_stats permits year) :
    e.pct_within_90_days ≤ e.pct_within_120_days := by
  unfold compute_borough_stats at he
  obtain ⟨g, _, rfl⟩ := List.mem_map.mp he
  exact statsForGroup_pct_mono year g.1 g.2

/-- Witness for C10 at the demo group entry. -/
theorem compute_borough_stats_pct_within_mono_witness :
    demoStatsEntry ∈ compute_borough_stats demoGroup 2024 ∧
      demoStatsEntry.pct_within_90_days ≤ demoStatsEntry.pct_within_120_days := by
  have hm : demoStatsEntry ∈ compute_borough_stats demoGroup 2024 := by
    rw [demo_stats_eval]
    exact List.mem_singleton.mpr rfl
  exact ⟨hm, compute_borough_stats_pct_within_mono demoGroup 2024 demoStatsEntry hm⟩

/-! Lemmas about the grouping loop of `compute_borough_stats`. -/

theorem assocFind_addToGroups_self (gs : List (String × List PermitRec)) (k : String)
    (p : PermitRec) :
    assocFind k (addToGroups gs k p) = some ((assocFind k gs).getD [] ++ [p]) := by
  induction gs with
  | nil => simp [addToGroups, assocFind]
  | cons g rest ih =>
    obtain ⟨k2, ps⟩ := g
    by_cases hk : k2 = k
    · subst hk
      simp [addToGroups, assocFind]
    · simp [addToGroups, assocFind, hk, ih]

theorem assocFind_addToGroups_other (gs : List (String × List PermitRec)) (k k2 : String)
    (p : PermitRec) (hne : k2 ≠ k) :
    assocFind k2 (addToGroups gs k p) = assocFind k2 gs := by
  induction gs with
  | nil => simp [addToGroups, assocFind, Ne.symm hne]
  | cons g rest ih =>
    obtain ⟨k3, ps⟩ := g
    by_cases hk : k3 = k
    · subst hk
      simp [addToGroups, assocFind, Ne.symm hne]
    · simp [addToGroups, assocFind, hk, ih]

theorem addToGroups_keys (gs : List (String × List PermitRec)) (k : String) (p : PermitRec) :
    (addToGroups gs k p).map Prod.fst =
      if k ∈ gs.map Prod.fst then gs.map Prod.fst else gs.map Prod.fst ++ [k] := by
  induction gs with
  | nil => simp [addToGroups]
  | cons g rest ih =>
    obtain ⟨k2, ps⟩ := g
    by_cases hk : k2 = k
    · subst hk
      simp [addToGroups]
    · simp only [addToGroups, if_neg hk, List.map_cons, ih]
      by_cases hmem : k ∈ rest.map Prod.fst
      · simp [hmem, hk, List.mem_cons]
      · simp [hmem, hk, List.mem_cons, Ne.symm hk]

theorem foldl_groupStep_find_some (l : List PermitRec)
    (gs : List (String × List PermitRec)) (k : String) (hk : k ≠ "")
    (ps : List PermitRec) (hfind : assocFind k gs = some ps) :
    assocFind k (l.foldl groupStep gs) = some (ps ++ grpFilter k l) := by
  induction l generalizing gs ps with
  | nil => simp [grpFilter, hfind]
  | cons p l' ih =>
    show assocFind k (l'.foldl groupStep (groupStep gs p)) = _
    by_cases hb : p.borough_normalized = ""
    · have hstep : groupStep gs p = gs := by simp [groupStep, hb]
      have hfilter : grpFilter k (p :: l') = grpFilter k l' := by
        simp [grpFilter, List.filter_cons, hb, Ne.symm hk]
      rw [hstep, hfilter]
      exact ih gs ps hfind
    · have hstep : groupStep gs p = addToGroups gs p.borough_normalized p := by
        simp [groupStep, hb]
      rw [hstep]
      by_cases hkb : p.borough_normalized = k
      · have hfind2 : assocFind k (addToGroups gs p.borough_normalized p) =
            some (ps ++ [p]) := by
          rw [hkb, assocFind_addToGroups_self, hfind]
          rfl
        have hfilter : grpFilter k (p :: l') = p :: grpFilter k l' := by
          simp [grpFilter, List.filter_cons, hkb]
        rw [hfilter]
        rw [ih _ _ hfind2]
        simp
      · have hfind2 : assocFind k (addToGroups gs p.borough_normalized p) = some ps := by
          rw [assocFind_addToGroups_other gs p.borough_normalized k p (Ne.symm hkb), hfind]
        have hfilter : grpFilter k (p :: l') = grpFilter k l' := by
          simp [grpFilter, List.filter_cons, hkb]
        rw [hfilter]
        exact ih _ _ hfind2

theorem foldl_groupStep_find_none (l : List PermitRec)
    (gs : List (String × List PermitRec)) (k : String) (hk : k ≠ "")
    (hfind : assocFind k gs = none) :
    assocFind k (l.foldl groupStep gs) =
      (if grpFilter k l = [] then none else some (grpFilter k l)) := by
  induction l generalizing gs with
  | nil => simp [grpFilter, hfind]
  | cons p l' ih =>
    show assocFind k (l'.foldl groupStep (groupStep gs p)) = _
    by_cases hb : p.borough_normalized = ""
    · have hstep : groupStep gs p = gs := by simp [groupStep, hb]
      have hfilter : grpFilter k (p :: l') = grpFilter k l' := by
        simp [grpFilter, List.filter_cons, hb, Ne.symm hk]
      rw [hstep, hfilter]
      exact ih gs hfind
    · have hstep : groupStep gs p = addToGroups gs p.borough_normalized p := by
        simp [groupStep, hb]
      rw [hstep]
      by_cases hkb : p.borough_normalized = k
      · have hfind2 : assocFind k (addToGroups gs p.borough_normalized p) =
            some [p] := by
          rw [hkb, assocFind_addToGroups_self, hfind]
          rfl
        have hfilter : grpFilter k (p :: l') = p :: grpFilter k l' := by
          simp [grpFilter, List.filter_cons, hkb]
        rw [hfilter]
        rw [foldl_groupStep_find_some l' _ k hk [p] hfind2]
        simp
      · have hfind2 : assocFind k (addToGroups gs p.borough_normalized p) = none := by
          rw [assocFind_addToGroups_other gs p.borough_normalized k p (Ne.symm hkb), hfind]
        have hfilter : grpFilter k (p :: l') = grpFilter k l' := by
          simp [grpFilter, List.filter_cons, hkb]
        rw [hfilter]
        exact ih _ hfind2

theorem assocFind_eq_none_iff {β : Type} (k : String) (l : List (String × β)) :
    assocFind k l = none ↔ k ∉ l.map Prod.fst := by
  induction l with
  | nil => simp [assocFind]
  | cons g rest ih =>
    obtain ⟨k2, v⟩ := g
    by_cases hk : k2 = k
    · subst hk
      simp [assocFind]
    · simp [assocFind, hk, ih, Ne.symm hk]

theorem assocFind_of_mem_nodup {β : Type} (k : String) (v : β) :
    ∀ l : List (String × β), (l.map Prod.fst).Nodup → (k, v) ∈ l → assocFind k l = some v := by
  intro l
  induction l with
  | nil => intro _ h; cases h
  | cons g rest ih =>
    intro hnd hm
    obtain ⟨k2, v2⟩ := g
    simp only [List.map_cons, List.nodup_cons] at hnd
    rcases List.mem_cons.mp hm with heq | hm2
    · have hk : k = k2 := congrArg Prod.fst heq
      have hv : v = v2 := congrArg Prod.snd heq
      subst hk
      subst hv
      simp [assocFind]
    · have hk2 : k2 ≠ k := by
        intro he
        subst he
        exact hnd.1 (List.mem_map.mpr ⟨(k2, v), hm2, rfl⟩)
      rw [assocFind, if_neg hk2]
      exact ih hnd.2 hm2

theorem foldl_groupStep_keys_nodup (l : List PermitRec) :
    ∀ gs : List (String × List PermitRec), (gs.map Prod.fst).Nodup →
      "" ∉ gs.map Prod.fst →
      ((l.foldl groupStep gs).map Prod.fst).Nodup ∧
        "" ∉ (l.foldl groupStep gs).map Prod.fst := by
  induction l with
  | nil => intro gs h1 h2; exact ⟨h1, h2⟩
  | cons p l' ih =>
    intro gs h1 h2
    show ((l'.foldl groupStep (groupStep gs p)).map Prod.fst).Nodup ∧ _
    apply ih
    · unfold groupStep
      by_cases hb : p.borough_normalized ≠ ""
      · rw [if_pos hb, addToGroups_keys]
        by_cases hmem : p.borough_normalized ∈ gs.map Prod.fst
        · rw [if_pos hmem]
          exact h1
        · rw [if_neg hmem]
          refine List.Nodup.append h1 (List.nodup_singleton _) ?_
          intro x hx hx2
          simp only [List.mem_singleton] at hx2
          subst hx2
          exact hmem hx
      · rw [if_neg hb]
        exact h1
    · unfold groupStep
      by_cases hb : p.borough_normalized ≠ ""
      · rw [if_pos hb, addToGroups_keys]
        by_cases hmem : p.borough_normalized ∈ gs.map Prod.fst
        · rw [if_pos hmem]
          exact h2
        · rw [if_neg hmem]
          intro hin
          rcases List.mem_append.mp hin with hin | hin
          · exact h2 hin
          · simp only [List.mem_singleton] at hin
            exact hb hin.symm
      · rw [if_neg hb]
        exact h2

theorem byBorough_find (permits : List PermitRec) (k : String) (hk : k ≠ "") :
    assocFind k (byBorough permits) =
      (if grpFilter k permits = [] then none else some (grpFilter k permits)) :=
  foldl_groupStep_find_none permits [] k hk rfl

theorem byBorough_keys_nodup (permits : List PermitRec) :
    ((byBorough permits).map Prod.fst).Nodup ∧ "" ∉ (byBorough permits).map Prod.fst :=
  foldl_groupStep_keys_nodup permits [] (by simp) (by simp)

theorem byBorough_mem_group (permits : List PermitRec) (k : String) (ps : List PermitRec)
    (hm : (k, ps) ∈ byBorough permits) :
    k ≠ "" ∧ ps = grpFilter k permits := by
  have hknd := byBorough_keys_nodup permits
  have hkmem : k ∈ (byBorough permits).map Prod.fst := List.mem_map.mpr ⟨(k, ps), hm, rfl⟩
  have hk : k ≠ "" := fun he => hknd.2 (he ▸ hkmem)
  have hfind := assocFind_of_mem_nodup k ps _ hknd.1 hm
  rw [byBorough_find permits k hk] at hfind
  by_cases hf : grpFilter k permits = []
  · rw [if_pos hf] at hfind
    cases hfind
  · rw [if_neg hf] at hfind
    injection hfind with h
    exact ⟨hk, h.symm⟩

theorem byBorough_group_exists (permits : List PermitRec) (k : String) (hk : k ≠ "")
    (hmem : k ∈ permits.map PermitRec.borough_normalized) :
    (k, grpFilter k permits) ∈ byBorough permits := by
  have hf : grpFilter k permits ≠ [] := by
    obtain ⟨p, hp, hpk⟩ := List.mem_map.mp hmem
    intro he
    have hpm : p ∈ grpFilter k permits := List.mem_filter.mpr ⟨hp, by simp [hpk]⟩
    rw [he] at hpm
    cases hpm
  have hfind := byBorough_find permits k hk
  rw [if_neg hf] at hfind
  exact assocFind_mem k _ _ hfind

/-- Claim C8: `compute_borough_stats` returns one entry per distinct non-empty
`borough_normalized` value, with the borough names strictly ascending (so
independent of input record order), and every entry is the statistics of
exactly the permits carrying its borough, so permits with an empty borough
appear in no entry and are counted in no statistic. -/
theorem compute_borough_stats_grouping (permits : List PermitRec) (year : Int) :
    ((compute_borough_stats permits year).map BoroughStats.borough).Sorted (· < ·) ∧
      (∀ b : String,
        b ∈ (compute_borough_stats permits year).map BoroughStats.borough ↔
          b ≠ "" ∧ b ∈ permits.map PermitRec.borough_normalized) ∧
      ∀ e ∈ compute_borough_stats permits year,
        e = statsForGroup year e.borough (grpFilter e.borough permits) := by
  have hperm : List.Perm (List.insertionSort keyLe (byBorough permits)) (byBorough permits) :=
    List.perm_insertionSort keyLe (byBorough permits)
  have hmapb : (compute_borough_stats permits year).map BoroughStats.borough =
      (List.insertionSort keyLe (byBorough permits)).map Prod.fst := by
    unfold compute_borough_stats
    rw [List.map_map]
    rfl
  refine ⟨?_, ?_, ?_⟩
  · rw [hmapb]
    have hsorted : List.Sorted keyLe (List.insertionSort keyLe (byBorough permits)) :=
      List.sorted_insertionSort keyLe (byBorough permits)
    have hnd : ((List.insertionSort keyLe (byBorough permits)).map Prod.fst).Nodup :=
      ((hperm.map Prod.fst).nodup_iff).mpr (byBorough_keys_nodup permits).1
    have hle : ((List.insertionSort keyLe (byBorough permits)).map Prod.fst).Pairwise
        (· ≤ ·) := by
      rw [List.pairwise_map]
      exact hsorted
    have hne : ((List.insertionSort keyLe (byBorough permits)).map Prod.fst).Pairwise
        (· ≠ ·) := hnd
    exact (hle.and hne).imp (fun h => lt_of_le_of_ne h.1 h.2)
  · intro b
    rw [hmapb]
    constructor
    · intro hmem
      have hmem2 : b ∈ (byBorough permits).map Prod.fst :=
        ((hperm.map Prod.fst).mem_iff).mp hmem
      have hb : b ≠ "" := fun he => (byBorough_keys_nodup permits).2 (he ▸ hmem2)
      refine ⟨hb, ?_⟩
      have hfind : assocFind b (byBorough permits) ≠ none := by
        rw [Ne, assocFind_eq_none_iff]
        simpa using hmem2
      rw [byBorough_find permits b hb] at hfind
      by_cases hf : grpFilter b permits = []
      · rw [if_pos hf] at hfind
        exact absurd rfl hfind
      · obtain ⟨p, hp⟩ := List.exists_mem_of_ne_nil _ hf
        have hp2 := List.mem_filter.mp hp
        exact List.mem_map.mpr ⟨p, hp2.1, by simpa using hp2.2⟩
    · rintro ⟨hb, hmem⟩
      have hgrp := byBorough_group_exists permits b hb hmem
      have hbk : b ∈ (byBorough permits).map Prod.fst :=
        List.mem_map.mpr ⟨_, hgrp, rfl⟩
      exact ((hperm.map Prod.fst).mem_iff).mpr hbk
  · intro e he
    unfold compute_borough_stats at he
    obtain ⟨g, hg, rfl⟩ := List.mem_map.mp he
    obtain ⟨k, ps⟩ := g
    have hgb : (k, ps) ∈ byBorough permits := hperm.subset hg
    obtain ⟨hk, hps⟩ := byBorough_mem_group permits k ps hgb
    show statsForGroup year k ps =
      statsForGroup year ((statsForGroup year k ps).borough)
        (grpFilter ((statsForGroup year k ps).borough) permits)
    have hbb : (statsForGroup year k ps).borough = k := rfl
    rw [hbb, ← hps]

/-- Witness for C8 at the demo group: the single borough is listed and its
entry is the stats of exactly its permits. -/
theorem compute_borough_stats_grouping_witness :
    ("Le Sud-Ouest" ∈ (compute_borough_stats demoGroup 2024).map BoroughStats.borough ↔
      "Le Sud-Ouest" ≠ "" ∧
        "Le Sud-Ouest" ∈ demoGroup.map PermitRec.borough_normalized) :=
  (compute_borough_stats_grouping demoGroup 2024).2.1 "Le Sud-Ouest"

/-! Lemmas for the top-level pipeline of `main`. -/

theorem processAll_ok_mem (raws : List RawRecord) (l : List PermitRec)
    (hl : processAll raws = .ok l) (r : RawRecord) (hr : r ∈ raws) :
    ∃ p, process_permit r = .ok p ∧ p ∈ l := by
  induction raws generalizing l with
  | nil => cases hr
  | cons r0 rs ih =>
    simp only [processAll] at hl
    cases hp0 : process_permit r0 with
    | error e =>
      rw [hp0] at hl
      exact Except.noConfusion hl
    | ok p0 =>
      rw [hp0] at hl
      cases hrest : processAll rs with
      | error e =>
        rw [hrest] at hl
        exact Except.noConfusion hl
      | ok ps =>
        rw [hrest] at hl
        injection hl with hl
        subst hl
        rcases List.mem_cons.mp hr with he | hm
        · subst he
          exact ⟨p0, hp0, List.mem_cons_self _ _⟩
        · obtain ⟨p, hp, hpm⟩ := ih ps hrest hm
          exact ⟨p, hp, List.mem_cons_of_mem _ hpm⟩

theorem length_sub_filter (f : PermitRec → Bool) (gp : List PermitRec) :
    gp.length - (gp.filter f).length = (gp.filter (fun q => !(f q))).length := by
  induction gp with
  | nil => rfl
  | cons a t ih =>
    have hle := List.length_filter_le f t
    cases hf : f a with
    | true =>
      rw [List.filter_cons_of_pos (by simp [hf]), List.filter_cons_of_neg (by simp [hf])]
      simp only [List.length_cons]
      omega
    | false =>
      rw [List.filter_cons_of_neg (by simp [hf]), List.filter_cons_of_pos (by simp [hf])]
      simp only [List.length_cons]
      omega

theorem statsForGroup_pending (year : Int) (b : String) (gp : List PermitRec) :
    (statsForGroup year b gp).permits_pending =
      (gp.filter (fun q => !q.issue_date.truthy)).length := by
  show gp.length - (gp.filter (fun p => p.issue_date.truthy)).length = _
  exact length_sub_filter _ gp

theorem pySlice10_ne_empty (s : String) (hs : s ≠ "") : pySlice10 s ≠ "" := by
  intro h
  have hd : s.data.take 10 = ([] : List Char) := congrArg String.data h
  have hlen := congrArg List.length hd
  rw [List.length_take] at hlen
  simp only [List.length_nil] at hlen
  have hpos : s.data.length ≠ 0 := by
    intro h0
    apply hs
    apply String.ext
    exact List.length_eq_zero.mp h0
  omega

/-- Claim C9: in the pipeline of `main`, a raw record with no `date_debut`
yields a null `application_date` while the processed set passed to aggregation
holds only records with a truthy `application_date` (so such a record is
excluded); a record with a truthy `date_debut` string but no `date_emission`
is retained with null `issue_date` and null `processing_days`, and is counted
in `total_permits` and `permits_pending` of its borough entry. -/
theorem pipeline_date_debut_filtering (raws : List RawRecord) (year : Int)
    (l : List PermitRec) (hl : processAll raws = .ok l) :
    (∀ q ∈ keepWithApplicationDate l, q.application_date.truthy = true) ∧
      (∀ r ∈ raws, assocFind "date_debut" r = none →
        ∀ p, process_permit r = .ok p → p.application_date = Value.null) ∧
      ∀ r ∈ raws, ∀ s, assocFind "date_debut" r = some (.str s) → s ≠ "" →
        assocFind "date_emission" r = none →
        ∀ p, process_permit r = .ok p →
          p ∈ keepWithApplicationDate l ∧ p.issue_date = Value.null ∧
            p.processing_days = none ∧
            (p.borough_normalized ≠ "" →
              ∃ e ∈ compute_borough_stats (keepWithApplicationDate l) year,
                e.borough = p.borough_normalized ∧
                e.total_permits =
                  (grpFilter p.borough_normalized (keepWithApplicationDate l)).length ∧
                p ∈ grpFilter p.borough_normalized (keepWithApplicationDate l) ∧
                e.permits_pending =
                  ((grpFilter p.borough_normalized (keepWithApplicationDate l)).filter
                    (fun q => !q.issue_date.truthy)).length ∧
                p ∈ (grpFilter p.borough_normalized (keepWithApplicationDate l)).filter
                    (fun q => !q.issue_date.truthy)) := by
  refine ⟨?_, ?_, ?_⟩
  · intro q hq
    exact (List.mem_filter.mp hq).2
  · intro r _ hfind p hp
    obtain ⟨pd, braw, appd, issd, lat, lon, h1, h2, h3, h4, h5, h6, hrec⟩ :=
      process_permit_ok_elim r p hp
    have hget : rawGet r "date_debut" = Value.null := by
      unfold rawGet
      rw [hfind]
      rfl
    rw [hget] at h3
    have h3x : Except.ok Value.null = Except.ok appd := h3
    injection h3x with h3x
    rw [hrec]
    show appd = Value.null
    exact h3x.symm
  · intro r hr s hdd hs hde p hp
    obtain ⟨pd, braw, appd, issd, lat, lon, h1, h2, h3, h4, h5, h6, hrec⟩ :=
      process_permit_ok_elim r p hp
    have hgetd : rawGet r "date_debut" = Value.str s := by
      unfold rawGet
      rw [hdd]
      rfl
    have hgete : rawGet r "date_emission" = Value.null := by
      unfold rawGet
      rw [hde]
      rfl
    rw [hgetd] at h3
    have h3s : sliceField (Value.str s) = .ok (.str (pySlice10 s)) := by
      simp [sliceField, Value.truthy, hs]
    rw [h3s] at h3
    injection h3 with h3
    rw [hgete] at h4
    have h4x : Except.ok Value.null = Except.ok issd := h4
    injection h4x with h4x
    have h1x : pd = none := by
      unfold daysStep at h1
      rw [hgete] at h1
      have hfalse : ((rawGet r "date_debut").truthy && Value.null.truthy) = false := by
        simp [Value.truthy]
      rw [hfalse] at h1
      rw [if_neg Bool.false_ne_true] at h1
      injection h1 with h1
      exact h1.symm
    obtain ⟨p', hp', hpm⟩ := processAll_ok_mem raws l hl r hr
    rw [hp] at hp'
    injection hp' with hpp
    subst hpp
    have htr : p.application_date.truthy = true := by
      rw [hrec]
      show appd.truthy = true
      rw [← h3]
      simp [Value.truthy, pySlice10_ne_empty s hs]
    have hkeep : p ∈ keepWithApplicationDate l := List.mem_filter.mpr ⟨hpm, htr⟩
    have hissue : p.issue_date = Value.null := by
      rw [hrec]
      exact h4x.symm
    have hpd : p.processing_days = none := by
      rw [hrec]
      exact h1x
    refine ⟨hkeep, hissue, hpd, ?_⟩
    intro hb
    have hbm : p.borough_normalized ∈
        (keepWithApplicationDate l).map PermitRec.borough_normalized :=
      List.mem_map.mpr ⟨p, hkeep, rfl⟩
    have hgrp := byBorough_group_exists (keepWithApplicationDate l) p.borough_normalized hb hbm
    have hperm := List.perm_insertionSort keyLe (byBorough (keepWithApplicationDate l))
    have hsg : (p.borough_normalized,
        grpFilter p.borough_normalized (keepWithApplicationDate l)) ∈
        List.insertionSort keyLe (byBorough (keepWithApplicationDate l)) :=
      hperm.mem_iff.mpr hgrp
    have hpg : p ∈ grpFilter p.borough_normalized (keepWithApplicationDate l) :=
      List.mem_filter.mpr ⟨hkeep, by simp⟩
    refine ⟨statsForGroup year p.borough_normalized
      (grpFilter p.borough_normalized (keepWithApplicationDate l)), ?_, rfl, rfl, hpg,
      statsForGroup_pending year _ _, ?_⟩
    · unfold compute_borough_stats
      exact List.mem_map.mpr ⟨_, hsg, rfl⟩
    · refine List.mem_filter.mpr ⟨hpg, ?_⟩
      rw [hissue]
      rfl

/-- Witness for C9 at a two-record batch: the record with a `date_debut` and
no `date_emission` is retained with null derived fields. -/
theorem pipeline_date_debut_filtering_witness :
    processAll demoRawBatch = .ok [demoBatchRec1, demoBatchRec2] ∧
      demoBatchRec2 ∈ keepWithApplicationDate [demoBatchRec1, demoBatchRec2] ∧
      demoBatchRec2.issue_date = Value.null ∧
      demoBatchRec2.processing_days = none := by
  have hall := pipeline_date_debut_filtering demoRawBatch 2024
    [demoBatchRec1, demoBatchRec2] rfl
  have hr2 := hall.2.2
    [("date_debut", .str "2024-01-10T00:00:00Z"), ("arrondissement", .str "Sud-Ouest")]
    (by right; exact List.mem_cons_self _ _) "2024-01-10T00:00:00Z" rfl (by decide) rfl
    demoBatchRec2 rfl
  exact ⟨rfl, hr2.1, hr2.2.1, hr2.2.2.1⟩
